import Mathlib

set_option allowUnsafeReducibility true
attribute [semireducible] Rat.add Rat.sub Rat.mul Rat.inv Rat.ofScientific

/-!
Shallow embedding of the core of the `stock-predictor` backend
(`src/backend/feature_engine.py`, `service.py`, `backtest.py`, `main.py`,
`tracker.py`) and proofs about it.  Prices, volumes and indicator values
are modelled as rationals; a missing value (a pandas `NaN`) is modelled
as `none` of `Option ℚ`.  IEEE infinities are outside the rational model,
so the `replace([inf,-inf], nan)` step of the cleaning pass is the
identity here.
-/

namespace StockPredictor

/-- Python substring test `needle in haystack` on strings
(used by `service.py` for the regime-label guardrails). -/
def pyIn (needle haystack : String) : Bool :=
  go needle.toList haystack.toList
where
  go (n : List Char) : List Char → Bool
    | [] => n.isEmpty
    | c :: t => n.isPrefixOf (c :: t) || go n t

/-- Insertion of a rational into a sorted list, ascending. -/
def insertSorted (x : ℚ) : List ℚ → List ℚ
  | [] => [x]
  | y :: t => if x ≤ y then x :: y :: t else y :: insertSorted x t

/-- Ascending sort by insertion; auxiliary for the `np.median` model. -/
def sortAsc (l : List ℚ) : List ℚ :=
  l.foldr insertSorted []

/-- Model of `np.median` on a list of rationals: sort ascending and take
the middle element (odd length) or the mean of the two middle elements
(even length).  `np.median` of an empty array is NaN; the windows this
model is applied to are nonempty, and we return 0 in that unreachable
case. -/
def npMedian (l : List ℚ) : ℚ :=
  if (sortAsc l).length = 0 then 0
  else if (sortAsc l).length % 2 = 1 then (sortAsc l).getD ((sortAsc l).length / 2) 0
  else ((sortAsc l).getD ((sortAsc l).length / 2 - 1) 0
        + (sortAsc l).getD ((sortAsc l).length / 2) 0) / 2

/-! ## Outlier Filter (`feature_engine.clean_data_robust`) -/

/-- One OHLCV bar.  Each field is `Option ℚ`: `none` models a pandas NaN. -/
structure Bar where
  opn : Option ℚ
  high : Option ℚ
  low : Option ℚ
  close : Option ℚ
  volume : Option ℚ
deriving DecidableEq, Repr

instance : Inhabited Bar := ⟨⟨none, none, none, none, none⟩⟩

/-- Forward fill (pandas `ffill`) of one column, carrying the last
observed value. -/
def ffillAux (prev : Option ℚ) : List (Option ℚ) → List (Option ℚ)
  | [] => []
  | none :: t => prev :: ffillAux prev t
  | some v :: t => some v :: ffillAux (some v) t

/-- Forward fill of a column. -/
def ffillList (l : List (Option ℚ)) : List (Option ℚ) :=
  ffillAux none l

/-- Backward fill (pandas `bfill`) of a column. -/
def bfillList (l : List (Option ℚ)) : List (Option ℚ) :=
  (ffillAux none l.reverse).reverse

/-- Forward fill then backward fill, the gap handling of
`clean_data_robust` (`df.ffill(); df.bfill()`), one column at a time. -/
def fillColumn (l : List (Option ℚ)) : List (Option ℚ) :=
  bfillList (ffillList l)

/-- Apply the ffill/bfill gap handling to every column of a bar list.
`df.replace([inf,-inf], nan)` is the identity on rational data. -/
def fillBars (bs : List Bar) : List Bar :=
  (List.range bs.length).map fun i =>
    { opn := (fillColumn (bs.map (·.opn))).getD i none
      high := (fillColumn (bs.map (·.high))).getD i none
      low := (fillColumn (bs.map (·.low))).getD i none
      close := (fillColumn (bs.map (·.close))).getD i none
      volume := (fillColumn (bs.map (·.volume))).getD i none }

/-- Trailing window of width `w` ending at index `i` (inclusive), the
window `df['Close'].rolling(window=w)` sees at row `i` once `i + 1 ≥ w`. -/
def rollWindow (w : ℕ) (closes : List ℚ) (i : ℕ) : List ℚ :=
  (closes.drop (i + 1 - w)).take w

/-- Rolling median of the close column.  With `min_periods = w` the first
`w - 1` rows are NaN and are then filled with the raw close
(`rolling_median.fillna(df['Close'])`). -/
def rollMedian (w : ℕ) (closes : List ℚ) (i : ℕ) : ℚ :=
  if i + 1 < w then closes.getD i 0 else npMedian (rollWindow w closes i)

/-- Rolling MAD of the close column
(`rolling.apply(lambda x: np.median(np.abs(x - np.median(x))))`), with
the first `w - 1` NaN rows filled with 0 (`rolling_mad.fillna(0)`). -/
def rollMad (w : ℕ) (closes : List ℚ) (i : ℕ) : ℚ :=
  if i + 1 < w then 0
  else npMedian ((rollWindow w closes i).map fun x => |x - npMedian (rollWindow w closes i)|)

/-- Outlier flag of row `i`:
`(close > median + k·MAD) or (close < median - k·MAD)`. -/
def isOutlier (w : ℕ) (t : ℚ) (closes : List ℚ) (i : ℕ) : Bool :=
  decide (closes.getD i 0 > rollMedian w closes i + t * rollMad w closes i)
    || decide (closes.getD i 0 < rollMedian w closes i - t * rollMad w closes i)

/-- The MAD filtering pass on the close column: every flagged row is
replaced by its rolling median (`df.loc[outliers,'Close'] = rolling_median`),
all statistics being computed once on the incoming column. -/
def cleanCloses (w : ℕ) (t : ℚ) (closes : List ℚ) : List ℚ :=
  (List.range closes.length).map fun i =>
    if isOutlier w t closes i then rollMedian w closes i else closes.getD i 0

/-- Rows surviving `df.dropna(subset=['Close'])` after the gap fills. -/
def cleanKept (bars : List Bar) : List Bar :=
  (fillBars bars).filter (fun b => b.close.isSome)

/-- Close column the MAD statistics are computed on. -/
def cleanInputCloses (bars : List Bar) : List ℚ :=
  (cleanKept bars).map (fun b => b.close.getD 0)

/-- `clean_data_robust(df, window, threshold)`: ffill/bfill gaps, drop
rows whose close is still missing, then run the MAD filter on the close
column.  Only the close column of flagged rows is reassigned. -/
def clean_data_robust (w : ℕ) (t : ℚ) (bars : List Bar) : List Bar :=
  (cleanKept bars).zipWith (fun b c => { b with close := some c })
    (cleanCloses w t (cleanInputCloses bars))

/-! ## Rolling Hurst exponent (`feature_engine.calculate_hurst`,
`feature_engine.add_hurst_feature`)

The lag-difference standard deviations and the `np.polyfit` log-log
regression are real-number computations; they are abstracted as a
parameter `reg : List ℚ → Option ℚ` giving the fitted slope for a price
window, with `none` modelling the NumPy exception swallowed by the
`try/except` of `calculate_hurst`.  Everything else — the lag filter,
the 0.5 defaults, the 5-bar stride and the
`replace(0.5, nan).interpolate().fillna(0.5)` post-processing — is
translated directly. -/

/-- `calculate_hurst(series)`: with fewer than 3 usable lags (or a
regression failure) return 0.5, otherwise the fitted slope. -/
def calculate_hurst (reg : List ℚ → Option ℚ) (series : List ℚ) : ℚ :=
  if (([2, 5, 10, 20, 30].filter (fun l => l < series.length)).length) < 3 then 1/2
  else match reg series with
    | some h => h
    | none => 1/2

/-- The raw Hurst column before post-processing: initialised to 0.5
everywhere, then for `i in range(window, len(df), 5)` set to
`calculate_hurst` of `closes[i-window : i]`. -/
def hurstRaw (reg : List ℚ → Option ℚ) (w : ℕ) (closes : List ℚ) : List ℚ :=
  (List.range closes.length).map fun i =>
    if w ≤ i ∧ (i - w) % 5 = 0 then calculate_hurst reg ((closes.drop (i - w)).take w)
    else 1/2

/-- `replace(0.5, np.nan)`: every exact 0.5 becomes missing. -/
def hurstObs (raw : List ℚ) : List (Option ℚ) :=
  raw.map fun x => if x = 1/2 then none else some x

/-- Greatest index `j < i` whose entry is present, with its value
(downward scan). -/
def findPrevSome (obs : List (Option ℚ)) : ℕ → Option (ℕ × ℚ)
  | 0 => none
  | j + 1 =>
    match obs.getD j none with
    | some v => some (j, v)
    | none => findPrevSome obs j

/-- Upward scan with fuel: least index `j ≥ start` (within fuel) whose
entry is present, with its value. -/
def findNextAux (obs : List (Option ℚ)) : ℕ → ℕ → Option (ℕ × ℚ)
  | 0, _ => none
  | fuel + 1, j =>
    match obs.getD j none with
    | some v => some (j, v)
    | none => findNextAux obs fuel (j + 1)

/-- Least index `j > i` whose entry is present, with its value. -/
def findNextSome (obs : List (Option ℚ)) (i : ℕ) : Option (ℕ × ℚ) :=
  findNextAux obs (obs.length - (i + 1)) (i + 1)

/-- Value of `Series.interpolate(method='linear')` at position `i`:
present values are kept; a missing value strictly between two present
ones is linearly interpolated on position; a missing value after the
last present one is filled with it; leading missing values stay
missing. -/
def interpAt (obs : List (Option ℚ)) (i : ℕ) : Option ℚ :=
  match obs.getD i none with
  | some v => some v
  | none =>
    match findPrevSome obs i, findNextSome obs i with
    | some (p, a), some (q, b) => some (a + (b - a) * ((i : ℚ) - (p : ℚ)) / ((q : ℚ) - (p : ℚ)))
    | some (_, a), none => some a
    | none, _ => none

/-- `fillna(0.5)`. -/
def fill05 : Option ℚ → ℚ
  | none => 1/2
  | some x => x

/-- `add_hurst_feature(df, window)` restricted to the Hurst column it
produces: stride computation, then
`replace(0.5, nan).interpolate(method='linear').fillna(0.5)`. -/
def add_hurst_feature (reg : List ℚ → Option ℚ) (w : ℕ) (closes : List ℚ) : List ℚ :=
  (List.range closes.length).map fun i =>
    fill05 (interpAt (hurstObs (hurstRaw reg w closes)) i)

/-! ## Regime labelling (`feature_engine.detect_regimes_gmm`)

The Gaussian-mixture fit itself is an iterative floating-point
optimisation and is not embedded; the claims concern the labelling step
that follows it.  A clustered table is modelled as a list of rows
`(regime, Return_1d)` with `regime ∈ {0, 1, 2}` (the `gmm.predict`
output for `n_components = 3`). -/

/-- Fixed ordered label list of `detect_regimes_gmm`. -/
def regime_labels : List String :=
  ["Bearish/Volatile", "Neutral/Choppy", "Bullish/Trending"]

/-- Mean `Return_1d` of cluster `c`
(`df.groupby('Regime')['Return_1d'].mean()`). -/
def clusterMean (rows : List (ℕ × ℚ)) (c : ℕ) : ℚ :=
  (((rows.filter (fun r => r.1 = c)).map Prod.snd).sum)
    / (((rows.filter (fun r => r.1 = c)).map Prod.snd).length : ℚ)

/-- Group keys of the `groupby`, i.e. the clusters that actually occur,
in ascending order (pandas sorts group keys). -/
def presentClusters (rows : List (ℕ × ℚ)) : List ℕ :=
  (List.range 3).filter fun c => rows.any fun r => r.1 = c

/-- Insertion into a list of cluster ids kept ascending by mean return. -/
def insertByMean (rows : List (ℕ × ℚ)) (c : ℕ) : List ℕ → List ℕ
  | [] => [c]
  | d :: l =>
    if clusterMean rows c ≤ clusterMean rows d then c :: d :: l
    else d :: insertByMean rows c l

/-- `cluster_stats.sort_values()`: cluster ids sorted ascending by mean
return (insertion sort; with pairwise distinct means any correct
ascending sort produces this order). -/
def sorted_clusters (rows : List (ℕ × ℚ)) : List ℕ :=
  (presentClusters rows).foldr (insertByMean rows) []

/-- `label_map`: the i-th cluster in ascending mean order receives the
i-th entry of the fixed label list. -/
def label_map (rows : List (ℕ × ℚ)) : List (ℕ × String) :=
  (sorted_clusters rows).zip regime_labels

/-- Label assigned to cluster `c` by `detect_regimes_gmm`. -/
def regime_label (rows : List (ℕ × ℚ)) (c : ℕ) : Option String :=
  ((label_map rows).find? (fun p => p.1 = c)).map Prod.snd

/-! ## Signal Engine (`service.predict_stock_price`, strategy V5 block)

`signal_action` is the regime-guardrail decision of
`service.py` lines 283–335, taking the last feature row's raw inputs. -/

/-- The V5 regime-aware action: returns `(action, score_desc)`. -/
def signal_action (regimeLabel : String) (current_price sma_200 rsi_val avg_vol curr_vol : ℚ) :
    String × String :=
  let is_uptrend : Bool := current_price > sma_200
  let is_dip : Bool := rsi_val < 45
  let is_deep_dip : Bool := rsi_val < 35
  let is_rip : Bool := rsi_val > 70
  let is_safe_vol : Bool := if avg_vol > 0 then decide (curr_vol < (5/2) * avg_vol) else true
  if pyIn "Strong Bear" regimeLabel then
    ("Avoid", "Bear Regime (No Buys)")
  else if pyIn "Weak Bear" regimeLabel || pyIn "Choppy" regimeLabel then
    if is_deep_dip && is_safe_vol then ("Buy", "Deep Value in Chop")
    else ("Wait", "Choppy Market (Wait for 35 RSI)")
  else
    if is_uptrend && is_dip then
      if is_safe_vol then ("Strong Buy", "Bull Trend + Dip")
      else ("Wait", "Dip but High Vol")
    else if is_rip then ("Sell", "Overbought")
    else if is_uptrend then ("Hold", "Uptrend (Wait for Dip)")
    else ("Avoid", "Downtrend")

/-! ## Backtest Simulator (`backtest.Backtester`)

A bar as seen by the loop of `Backtester.run`: `SMA_200` and
`Volume_SMA_20` may be NaN (warm-up rows), which the code observes
through `pd.isna` and through float comparisons with NaN (always false),
so both are `Option ℚ`. -/

structure Row where
  close : ℚ
  sma_200 : Option ℚ
  rsi : ℚ
  volume : ℚ
  volume_sma_20 : Option ℚ
deriving DecidableEq, Repr

inductive Sig where
  | BUY
  | SELL
  | WAIT
deriving DecidableEq, Repr

/-- `Backtester.get_signal` (strategy V2 pullback). -/
def get_signal (row : Row) : Sig :=
  match row.sma_200 with
  | none => .WAIT
  | some sma =>
    let trend_up : Bool := row.close > sma
    let dip : Bool := row.rsi < 40
    let rip : Bool := row.rsi > 70
    let safe_volume : Bool :=
      match row.volume_sma_20 with
      | none => false
      | some avg => row.volume < 2 * avg
    if trend_up && dip && safe_volume then .BUY
    else if rip then .SELL
    else .WAIT

/-- A ledger entry of `self.trades`. -/
structure Trade where
  typ : String
  price : ℚ
  balance : ℚ
  profit : Option ℚ := none
  reason : Option String := none
deriving DecidableEq, Repr

/-- The mutable state of `Backtester.run`: object fields plus the loop
locals `in_position`, `buy_price`, `stop_loss`, `take_profit`. -/
structure BtState where
  balance : ℚ
  position : ℚ
  inPosition : Bool
  buyPrice : ℚ
  stopLoss : ℚ
  takeProfit : ℚ
  trades : List Trade
  equity : List ℚ
deriving DecidableEq, Repr

/-- Starting state of a run with the given initial capital. -/
def btInit (initialCapital : ℚ) : BtState :=
  { balance := initialCapital, position := 0, inPosition := false,
    buyPrice := 0, stopLoss := 0, takeProfit := 0, trades := [], equity := [] }

/-- `Backtester.execute_sell`: credit the proceeds, record a SELL trade
whose profit is measured against the last BUY trade's price (`none`
models the IndexError were no BUY present — unreachable from reachable
states). -/
def execute_sell (s : BtState) (price : ℚ) (reason : String) : BtState :=
  let sellTrade : Trade :=
    { typ := "SELL", price := price,
      balance := s.balance + s.position * price,
      profit := ((s.trades.filter (fun tr => tr.typ = "BUY")).getLast?).map
        (fun tr => s.position * price - s.position * tr.price),
      reason := some reason }
  { s with
    balance := s.balance + s.position * price
    position := 0
    trades := s.trades ++ [sellTrade] }

/-- A forced exit: `execute_sell` followed by `in_position = False`;
the `continue` of the loop body means nothing else happens on the bar. -/
def exitState (s : BtState) (price : ℚ) (reason : String) : BtState :=
  let s2 := execute_sell s price reason
  { s2 with inPosition := false }

/-- Whether the stop-loss/take-profit block exits on this bar. -/
def exitFires (s : BtState) (row : Row) : Bool :=
  s.inPosition && (decide (row.close ≤ s.stopLoss) || decide (row.close ≥ s.takeProfit))

/-- One iteration of the `for date, row in self.df.iterrows()` loop. -/
def btStep (s : BtState) (row : Row) : BtState :=
  let signal := get_signal row
  let price := row.close
  if s.inPosition = true ∧ price ≤ s.stopLoss then
    exitState s price "SL"
  else if s.inPosition = true ∧ price ≥ s.takeProfit then
    exitState s price "TP"
  else
    let s1 :=
      if signal = .BUY ∧ s.inPosition = false then
        let shares : ℚ := (⌊s.balance / price⌋ : ℤ)
        let buyTrade : Trade :=
          { typ := "BUY", price := price, balance := s.balance - shares * price }
        { s with
          position := shares
          balance := s.balance - shares * price
          buyPrice := price
          stopLoss := price * (95/100)
          takeProfit := price * (110/100)
          inPosition := true
          trades := s.trades ++ [buyTrade] }
      else if signal = .SELL ∧ s.inPosition = true then
        exitState s price "Signal"
      else s
    { s1 with equity := s1.equity ++ [s1.balance + s1.position * price] }

/-- The bar loop of `Backtester.run`. -/
def btLoop (s : BtState) : List Row → BtState
  | [] => s
  | r :: rs => btLoop (btStep s r) rs

/-- `Backtester.run` after data preparation: the bar loop followed by the
final liquidation of any open position at the last close. -/
def btRun (initialCapital : ℚ) (rows : List Row) : BtState :=
  let s := btLoop (btInit initialCapital) rows
  if s.inPosition = true then
    match rows.getLast? with
    | some r => exitState s r.close "End"
    | none => s
  else s

/-! ## HTTP boundary (`main.predict_endpoint`)

The pipeline call is abstracted as a function into `PipeResult`; the
endpoint's own control flow — validation inside the `try` block, the
`except ValueError` and `except Exception` handlers — is translated
directly.  Python exception classing matters here: FastAPI's
`HTTPException` derives from `Exception` but not from `ValueError`. -/

inductive PipeResult where
  | ok : PipeResult
  | valueError : String → PipeResult
  | failure : String → PipeResult

/-- Exceptions that can escape the body of the endpoint's `try` block. -/
inductive Exc where
  | httpExc : ℕ → String → Exc
  | valueExc : String → Exc
  | otherExc : String → Exc

/-- Python `isinstance(e, ValueError)`: an `HTTPException` is not a
`ValueError`. -/
def isValueError : Exc → Bool
  | .valueExc _ => true
  | _ => false

/-- `str(e)` for each exception class (Starlette's `HTTPException.__str__`
is `f"{status_code}: {detail}"`). -/
def excMessage : Exc → String
  | .httpExc c d => toString c ++ ": " ++ d
  | .valueExc m => m
  | .otherExc m => m

/-- Python `str.strip()`. -/
def pyStrip (s : String) : String :=
  ⟨((s.toList.dropWhile Char.isWhitespace).reverse.dropWhile Char.isWhitespace).reverse⟩

/-- Python `str.upper()`. -/
def pyUpper (s : String) : String :=
  ⟨s.toList.map Char.toUpper⟩

/-- Body of the `try` block of `predict_endpoint`: validate the symbol
(raising `HTTPException(400)` when blank) then run the pipeline. -/
def tryBody (pipeline : String → PipeResult) (raw : String) : Except Exc Unit :=
  let symbol := pyUpper (pyStrip raw)
  if symbol = "" then .error (.httpExc 400 "Symbol cannot be empty")
  else
    match pipeline symbol with
    | .ok => .ok ()
    | .valueError m => .error (.valueExc m)
    | .failure m => .error (.otherExc m)

/-- `predict_endpoint`: the `try` body with its two handlers,
`except ValueError → 404` and `except Exception → 500`.  Result is
`(status code, detail)`. -/
def predict_endpoint (pipeline : String → PipeResult) (raw : String) : ℕ × String :=
  match tryBody pipeline raw with
  | .ok _ => (200, "ok")
  | .error e =>
    if isValueError e then (404, excMessage e)
    else (500, "Internal Server Error: " ++ excMessage e)

/-! ## Accuracy Tracker (`tracker.log_prediction`)

The persisted JSON history is an association of symbol to entry list;
`datetime.now()` is passed in as `today`. -/

/-- One `PredictionLogEntry` as written by `log_prediction`. -/
structure PredEntry where
  date : String
  predicted : ℚ
  actual : Option ℚ := none
  verified : Bool := false
  target_date : Option String := none
deriving DecidableEq, Repr

/-- Entry list persisted for a symbol (empty when the key is absent). -/
def entriesFor (h : List (String × List PredEntry)) (s : String) : List PredEntry :=
  (((h.find? (fun kv => kv.1 = s))).map Prod.snd).getD []

/-- Key-presence test of the history mapping. -/
def hasKey (h : List (String × List PredEntry)) (s : String) : Bool :=
  h.any (fun kv => kv.1 = s)

/-- Replace (or create) the binding of symbol `s`. -/
def setEntries (h : List (String × List PredEntry)) (s : String) (v : List PredEntry) :
    List (String × List PredEntry) :=
  if hasKey h s then h.map (fun kv => if kv.1 = s then (kv.1, v) else kv)
  else h ++ [(s, v)]

/-- `tracker.log_prediction(symbol, prediction_price)` acting on the
persisted history: if no entry of the symbol carries today's date,
append `{date: today, predicted: price, actual: None, verified: False}`
and save; otherwise the file is left untouched. -/
def log_prediction (h : List (String × List PredEntry)) (s today : String) (price : ℚ) :
    List (String × List PredEntry) :=
  if (entriesFor h s).any (fun e => e.date = today) then h
  else setEntries h s (entriesFor h s ++ [{ date := today, predicted := price }])

/-! ## Chart assembly (`service.predict_stock_price`, step 9)

Dates are modelled as integers ordered like the datetimes they stand
for. -/

/-- A cleaned history row as used for the chart (close plus indicator
fields). -/
structure HistRow where
  date : ℤ
  close : ℚ
  rsi : Option ℚ := none
  macd : Option ℚ := none
deriving DecidableEq, Repr

/-- One row of the Prophet forecast frame. -/
structure ForecastRow where
  ds : ℤ
  yhat : ℚ
  yhat_lower : ℚ
  yhat_upper : ℚ
deriving DecidableEq, Repr

/-- One element of the `chart_data` payload. -/
structure ChartPoint where
  date : ℤ
  price : ℚ
  isPrediction : Bool
  lowerBound : Option ℚ := none
  upperBound : Option ℚ := none
  rsi : Option ℚ := none
  macd : Option ℚ := none
deriving DecidableEq, Repr

/-- The `chart_data` list: the last 90 history rows (`df.tail(90)`) as
non-prediction points, then every forecast row with `ds > last_date` as
a prediction point with `price = max(0, yhat)` and the raw uncertainty
bounds attached. -/
def chart_data (df : List HistRow) (forecast : List ForecastRow) (lastDate : ℤ) :
    List ChartPoint :=
  (df.drop (df.length - 90)).map (fun r =>
    { date := r.date, price := r.close, isPrediction := false,
      rsi := r.rsi, macd := r.macd })
  ++ (forecast.filter (fun r => lastDate < r.ds)).map (fun r =>
    { date := r.ds, price := max 0 r.yhat, isPrediction := true,
      lowerBound := some r.yhat_lower, upperBound := some r.yhat_upper })

/-! ## Concrete example inputs used by witnesses and counterexamples -/

/-- A bar on which the V2 strategy buys (uptrend, RSI dip, dry volume). -/
def rowBuy : Row := ⟨100, some 50, 30, 100, some 100⟩

/-- A bar whose close (90) breaches the stop-loss of a 100-entry. -/
def rowSL : Row := ⟨90, some 50, 50, 100, some 100⟩

/-- A bar whose close (111) clears a 110 take-profit. -/
def rowTP : Row := ⟨111, some 50, 50, 100, some 100⟩

/-- A bar whose close (95) is in the tie region of `stTie`. -/
def rowTie : Row := ⟨95, some 50, 50, 100, some 100⟩

/-- An open 1000-share position entered at 100 (stop 95, take 110). -/
def stInPos : BtState := ⟨0, 1000, true, 100, 95, 110, [⟨"BUY", 100, 0, none, none⟩], [100000]⟩

/-- An open position whose thresholds overlap (`takeProfit ≤ stopLoss`),
so one close can cross both. -/
def stTie : BtState := ⟨0, 10, true, 100, 100, 90, [⟨"BUY", 100, 0, none, none⟩], []⟩

/-- An open 10-share position entered at 100 (stop 95, take 110). -/
def stTP : BtState := ⟨0, 10, true, 100, 95, 110, [⟨"BUY", 100, 0, none, none⟩], []⟩

/-! ## Helper lemmas -/

theorem insertSorted_perm (x : ℚ) (l : List ℚ) : List.Perm (insertSorted x l) (x :: l) := by
  induction l with
  | nil => simp [insertSorted]
  | cons a t ih =>
    by_cases hx : x ≤ a
    · simp [insertSorted, hx]
    · simp only [insertSorted, if_neg hx]
      exact (ih.cons a).trans (List.Perm.swap x a t)

theorem sortAsc_perm (l : List ℚ) : List.Perm (sortAsc l) l := by
  induction l with
  | nil => simp [sortAsc]
  | cons a t ih => exact (insertSorted_perm a (sortAsc t)).trans (ih.cons a)

theorem mem_sortAsc {y : ℚ} {l : List ℚ} (h : y ∈ sortAsc l) : y ∈ l :=
  (sortAsc_perm l).mem_iff.mp h

theorem length_sortAsc (l : List ℚ) : (sortAsc l).length = l.length :=
  (sortAsc_perm l).length_eq

/-- The median of a list of nonnegative rationals is nonnegative. -/
theorem npMedian_nonneg {l : List ℚ} (h : ∀ x ∈ l, 0 ≤ x) : 0 ≤ npMedian l := by
  have hs : ∀ x ∈ sortAsc l, 0 ≤ x := fun x hx => h x (mem_sortAsc hx)
  have hget : ∀ i, 0 ≤ (sortAsc l).getD i 0 := by
    intro i
    by_cases hi : i < (sortAsc l).length
    · have : (sortAsc l).getD i 0 ∈ sortAsc l := by
        rw [List.getD_eq_getElem _ _ hi]
        exact List.getElem_mem hi
      exact hs _ this
    · rw [List.getD_eq_default _ _ (Nat.le_of_not_lt hi)]
  unfold npMedian
  split
  · exact le_refl 0
  · split
    · exact hget _
    · have h1 := hget ((sortAsc l).length / 2 - 1)
      have h2 := hget ((sortAsc l).length / 2)
      positivity

/-- A one-symbol prediction history carrying one verified-pending entry
of an earlier date. -/
def histEx : List (String × List PredEntry) :=
  [("TCS", [⟨"2026-10-11", 5, none, false, none⟩])]

/-- A concrete instance of the abstracted Hurst regression core: it
raises (returns `none`) exactly on the window starting at price 5 and
fits slope 0.7 elsewhere.  (The real `np.polyfit` call raises e.g. on a
constant window, where `log(std) = log 0` is not finite.) -/
def regC5 : List ℚ → Option ℚ :=
  fun s => if s.head? = some 5 then none else some (7/10)

/-- 111 increasing closes, enough for stride computations at indices
100, 105 and 110. -/
def closesC5 : List ℚ := (List.range 111).map (fun i => (i : ℚ))

/-- A clustered feature table with three populated clusters whose mean
returns are −1, 1 and 4. -/
def rowsC2 : List (ℕ × ℚ) := [(0, -2), (0, 0), (1, 1), (2, 3), (2, 5)]

/-- A complete bar with the given close. -/
def mkBar (c : ℚ) : Bar := ⟨some 1, some 1, some 1, some c, some 1⟩

/-- Bars on which the MAD filter is not idempotent: pass one turns
[10,10,10,10,50,11,12] into [10,10,10,10,10,10,12]; pass two then sees
the window [10,10,10,10,12] whose MAD is 0 and flags the 12. -/
def barsC7 : List Bar :=
  [mkBar 10, mkBar 10, mkBar 10, mkBar 10, mkBar 50, mkBar 11, mkBar 12]

/-- Two bars, the second with a missing close: the gap fill assigns it
the previous close instead of the row being dropped. -/
def barsC8 : List Bar := [mkBar 10, ⟨some 1, some 1, some 1, none, some 1⟩]

/-- A complete sequence with a single injected spike (150 against a
local median of 12) at index 5; every other window has positive MAD. -/
def barsC8w : List Bar :=
  [mkBar 10, mkBar 12, mkBar 11, mkBar 13, mkBar 12, mkBar 150, mkBar 11,
   mkBar 13, mkBar 12, mkBar 14]

/-! ## Theorems for the claims -/

theorem map_range_getD {α : Type} (l : List α) (d : α) :
    (List.range l.length).map (fun i => l.getD i d) = l := by
  apply List.ext_getElem
  · simp
  · intro i h1 h2
    simp only [List.getElem_map, List.getElem_range]
    rw [List.getD_eq_getElem]

theorem length_cleanCloses (w : ℕ) (t : ℚ) (l : List ℚ) :
    (cleanCloses w t l).length = l.length := by
  simp [cleanCloses]

theorem length_fillBars (bs : List Bar) : (fillBars bs).length = bs.length := by
  simp [fillBars]

theorem ffillAux_of_complete : ∀ (prev : Option ℚ) (l : List (Option ℚ)),
    (∀ x ∈ l, x.isSome = true) → ffillAux prev l = l
  | _, [], _ => rfl
  | _, none :: t, h => absurd (h none (by simp)) (by simp)
  | prev, some v :: t, h => by
    rw [ffillAux, ffillAux_of_complete (some v) t (fun x hx => h x (List.mem_cons_of_mem _ hx))]

theorem fillColumn_of_complete (l : List (Option ℚ)) (h : ∀ x ∈ l, x.isSome = true) :
    fillColumn l = l := by
  unfold fillColumn ffillList bfillList
  rw [ffillAux_of_complete none l h,
    ffillAux_of_complete none l.reverse (fun x hx => h x (List.mem_reverse.mp hx)),
    List.reverse_reverse]

theorem rollMad_nonneg (w : ℕ) (closes : List ℚ) (i : ℕ) : 0 ≤ rollMad w closes i := by
  unfold rollMad
  split
  · exact le_refl 0
  · exact npMedian_nonneg (by
      intro x hx
      obtain ⟨y, _, rfl⟩ := List.mem_map.mp hx
      exact abs_nonneg _)

/-- On bars whose every field is present the gap fills are the
identity. -/
theorem fillBars_of_complete (bs : List Bar)
    (hc : ∀ b ∈ bs, b.opn.isSome = true ∧ b.high.isSome = true ∧ b.low.isSome = true ∧
      b.close.isSome = true ∧ b.volume.isSome = true) :
    fillBars bs = bs := by
  have hco : fillColumn (bs.map (·.opn)) = bs.map (·.opn) :=
    fillColumn_of_complete _ (by
      intro x hx
      obtain ⟨b, hb, rfl⟩ := List.mem_map.mp hx
      exact (hc b hb).1)
  have hch : fillColumn (bs.map (·.high)) = bs.map (·.high) :=
    fillColumn_of_complete _ (by
      intro x hx
      obtain ⟨b, hb, rfl⟩ := List.mem_map.mp hx
      exact (hc b hb).2.1)
  have hcl : fillColumn (bs.map (·.low)) = bs.map (·.low) :=
    fillColumn_of_complete _ (by
      intro x hx
      obtain ⟨b, hb, rfl⟩ := List.mem_map.mp hx
      exact (hc b hb).2.2.1)
  have hcc : fillColumn (bs.map (·.close)) = bs.map (·.close) :=
    fillColumn_of_complete _ (by
      intro x hx
      obtain ⟨b, hb, rfl⟩ := List.mem_map.mp hx
      exact (hc b hb).2.2.2.1)
  have hcv : fillColumn (bs.map (·.volume)) = bs.map (·.volume) :=
    fillColumn_of_complete _ (by
      intro x hx
      obtain ⟨b, hb, rfl⟩ := List.mem_map.mp hx
      exact (hc b hb).2.2.2.2)
  unfold fillBars
  rw [hco, hch, hcl, hcc, hcv]
  apply List.ext_getElem
  · simp
  · intro i h1 h2
    simp only [List.getElem_map, List.getElem_range]
    have hmm : ∀ f : Bar → Option ℚ, (bs.map f).getD i none = f bs[i] := by
      intro f
      rw [List.getD_eq_getElem _ _ (by simpa using h2), List.getElem_map]
    simp only [hmm]

/-- The close column of the filled bars, when every close is present. -/
theorem fillBars_close_of_closeComplete (bs : List Bar)
    (hc : ∀ b ∈ bs, b.close.isSome = true) :
    ∀ b ∈ fillBars bs, b.close.isSome = true := by
  intro b hb
  obtain ⟨i, hi, rfl⟩ := List.mem_map.mp hb
  have hir : i < bs.length := by simpa using List.mem_range.mp hi
  have hcc : fillColumn (bs.map (·.close)) = bs.map (·.close) :=
    fillColumn_of_complete _ (by
      intro x hx
      obtain ⟨b2, hb2, rfl⟩ := List.mem_map.mp hx
      exact hc b2 hb2)
  simp only [hcc]
  rw [List.getD_eq_getElem _ _ (by simpa using hir), List.getElem_map]
  exact hc _ (List.getElem_mem _)

/-- With every close present no row is dropped and the output is
index-aligned with the input. -/
theorem length_clean_of_closeComplete (w : ℕ) (t : ℚ) (bs : List Bar)
    (hc : ∀ b ∈ bs, b.close.isSome = true) :
    (clean_data_robust w t bs).length = bs.length := by
  have hkept : cleanKept bs = fillBars bs := by
    unfold cleanKept
    exact List.filter_eq_self.mpr (fillBars_close_of_closeComplete bs hc)
  unfold clean_data_robust
  rw [List.length_zipWith, hkept, length_cleanCloses]
  unfold cleanInputCloses
  rw [hkept, length_fillBars, List.length_map, length_fillBars, Nat.min_self]

/-- Every row of the filter's output carries a present close. -/
theorem clean_close_isSome (w : ℕ) (t : ℚ) (bs : List Bar) :
    ∀ b ∈ clean_data_robust w t bs, b.close.isSome = true := by
  intro b hb
  unfold clean_data_robust at hb
  obtain ⟨i, hi, heq⟩ := List.mem_iff_getElem.mp hb
  rw [List.getElem_zipWith] at heq
  rw [← heq]
  rfl

/-- A pass that flags nothing rewrites nothing. -/
theorem cleanCloses_of_no_outliers (w : ℕ) (t : ℚ) (closes : List ℚ)
    (h : ∀ i < closes.length, isOutlier w t closes i = false) :
    cleanCloses w t closes = closes := by
  unfold cleanCloses
  apply List.ext_getElem
  · simp
  · intro i h1 h2
    simp only [List.getElem_map, List.getElem_range]
    have hf := h i (by simpa using h2)
    simp only [hf, Bool.false_eq_true, if_false]
    rw [List.getD_eq_getElem]

/-- C7 counterexample: the filter is not idempotent.  On the complete
bars with closes [10,10,10,10,50,11,12] the first pass yields
[10,10,10,10,10,10,12]; on that output the window ending at the last row
is [10,10,10,10,12] with median 10 and MAD 0, so the second pass flags
the 12 and changes it to 10. -/
theorem C7_counterexample_second_pass_changes_close :
    ¬ clean_data_robust 5 15 (clean_data_robust 5 15 barsC7) = clean_data_robust 5 15 barsC7 ∧
    ((clean_data_robust 5 15 (clean_data_robust 5 15 barsC7)).getD 6 default).close = some 10 ∧
    ((clean_data_robust 5 15 barsC7).getD 6 default).close = some 12 := by
  refine ⟨by decide, by decide, by decide⟩

/-- C7 amended: re-running the filter on its own output drops no row
(every output row has a present close), and a pass that detects no
outliers returns the close column unchanged; idempotence fails in
general because replacing an outlier can collapse a later window's MAD
and make the second pass flag a previously clean close. -/
theorem C7_partial_idempotence :
    (∀ (w : ℕ) (t : ℚ) (closes : List ℚ),
       (∀ i < closes.length, isOutlier w t closes i = false) →
       cleanCloses w t closes = closes) ∧
    (∀ (w : ℕ) (t : ℚ) (bars : List Bar),
       (clean_data_robust w t (clean_data_robust w t bars)).length =
         (clean_data_robust w t bars).length) := by
  refine ⟨cleanCloses_of_no_outliers, ?_⟩
  intro w t bars
  exact length_clean_of_closeComplete w t _ (clean_close_isSome w t bars)

/-- C7 witness: a short clean series is left untouched, and the second
pass over the counterexample bars keeps all 7 rows even while changing a
value. -/
theorem C7_partial_idempotence_witness :
    cleanCloses 5 15 [1, 2, 3] = [1, 2, 3] ∧
    (clean_data_robust 5 15 (clean_data_robust 5 15 barsC7)).length =
      (clean_data_robust 5 15 barsC7).length ∧
    (clean_data_robust 5 15 (clean_data_robust 5 15 barsC7)).length = 7 := by
  refine ⟨C7_partial_idempotence.1 5 15 [1, 2, 3] (by decide),
    C7_partial_idempotence.2 5 15 barsC7, by decide⟩

/-- C8 counterexample: the claim says the filter modifies only the Close
of bars flagged as outliers and removes rows with missing close.  A bar
whose close is missing is instead kept and silently assigned the
previous close by the `ffill` that precedes the `dropna`, without being
flagged as an outlier. -/
theorem C8_counterexample_missing_close_filled_not_dropped :
    (clean_data_robust 5 15 barsC8).length = 2 ∧
    ((clean_data_robust 5 15 barsC8).getD 1 default).close = some 10 ∧
    (barsC8.getD 1 default).close = none ∧
    (List.range 2).filter (fun i => isOutlier 5 15 (cleanInputCloses barsC8) i) = [] := by
  refine ⟨by decide, by decide, by decide, by decide⟩

/-- C8 amended: on a complete bar sequence (the gap fill is then the
identity) the filter keeps every row in place and in order, leaves
open/high/low/volume and every unflagged close unchanged, and rewrites
each flagged close to its rolling median, a value inside the
`[median − t·MAD, median + t·MAD]` band; rows can be dropped only when a
close is missing, in which case the fill, not the drop, handles it
unless the whole column is missing. -/
theorem C8_modifies_only_flagged_closes (w : ℕ) (t : ℚ) (bars : List Bar)
    (hcomp : ∀ b ∈ bars, b.opn.isSome = true ∧ b.high.isSome = true ∧
      b.low.isSome = true ∧ b.close.isSome = true ∧ b.volume.isSome = true)
    (ht : 0 ≤ t) :
    (clean_data_robust w t bars).length = bars.length ∧
    ∀ i, i < bars.length →
      ((clean_data_robust w t bars).getD i default).opn = (bars.getD i default).opn ∧
      ((clean_data_robust w t bars).getD i default).high = (bars.getD i default).high ∧
      ((clean_data_robust w t bars).getD i default).low = (bars.getD i default).low ∧
      ((clean_data_robust w t bars).getD i default).volume = (bars.getD i default).volume ∧
      ((clean_data_robust w t bars).getD i default).close =
        (if isOutlier w t (bars.map (fun b => b.close.getD 0)) i then
          some (rollMedian w (bars.map (fun b => b.close.getD 0)) i)
         else (bars.getD i default).close) ∧
      (rollMedian w (bars.map (fun b => b.close.getD 0)) i -
          t * rollMad w (bars.map (fun b => b.close.getD 0)) i ≤
        rollMedian w (bars.map (fun b => b.close.getD 0)) i ∧
       rollMedian w (bars.map (fun b => b.close.getD 0)) i ≤
        rollMedian w (bars.map (fun b => b.close.getD 0)) i +
          t * rollMad w (bars.map (fun b => b.close.getD 0)) i) := by
  have hclose : ∀ b ∈ bars, b.close.isSome = true := fun b hb => (hcomp b hb).2.2.2.1
  have hfill : fillBars bars = bars := fillBars_of_complete bars hcomp
  have hkept : cleanKept bars = bars := by
    unfold cleanKept
    rw [hfill]
    exact List.filter_eq_self.mpr hclose
  have hcin : cleanInputCloses bars = bars.map (fun b => b.close.getD 0) := by
    unfold cleanInputCloses
    rw [hkept]
  have hlen : (clean_data_robust w t bars).length = bars.length :=
    length_clean_of_closeComplete w t bars hclose
  refine ⟨hlen, ?_⟩
  intro i hi
  have hlcc : (cleanCloses w t (cleanInputCloses bars)).length = bars.length := by
    rw [length_cleanCloses, hcin, List.length_map]
  have hicc : i < (cleanCloses w t (cleanInputCloses bars)).length := by rw [hlcc]; exact hi
  have hout : (clean_data_robust w t bars).getD i default =
      { bars.getD i default with
        close := some ((cleanCloses w t (cleanInputCloses bars)).getD i 0) } := by
    unfold clean_data_robust
    rw [hkept]
    rw [List.getD_eq_getElem _ _ (by rw [List.length_zipWith, hlcc, Nat.min_self]; exact hi)]
    rw [List.getElem_zipWith, List.getD_eq_getElem _ _ hi, List.getD_eq_getElem _ _ hicc]
  have hcc : (cleanCloses w t (cleanInputCloses bars)).getD i 0 =
      if isOutlier w t (bars.map (fun b => b.close.getD 0)) i then
        rollMedian w (bars.map (fun b => b.close.getD 0)) i
      else (bars.map (fun b => b.close.getD 0)).getD i 0 := by
    rw [List.getD_eq_getElem _ _ hicc]
    unfold cleanCloses
    simp only [List.getElem_map, List.getElem_range, hcin]
  have hvi : some ((bars.map (fun b => b.close.getD 0)).getD i 0) =
      (bars.getD i default).close := by
    rw [List.getD_eq_getElem (bars.map (fun b => b.close.getD 0)) _ (by simpa using hi),
      List.getElem_map, List.getD_eq_getElem _ _ hi]
    obtain ⟨v, hv⟩ := Option.isSome_iff_exists.mp (hclose bars[i] (List.getElem_mem _))
    rw [hv]
    rfl
  refine ⟨by rw [hout], by rw [hout], by rw [hout], by rw [hout], ?_, ?_, ?_⟩
  · rw [hout]
    show some ((cleanCloses w t (cleanInputCloses bars)).getD i 0) = _
    rw [hcc]
    by_cases hflag : isOutlier w t (bars.map (fun b => b.close.getD 0)) i
    · rw [if_pos hflag, if_pos hflag]
    · rw [if_neg hflag, if_neg hflag, hvi]
  · nlinarith [mul_nonneg ht (rollMad_nonneg w (bars.map (fun b => b.close.getD 0)) i)]
  · nlinarith [mul_nonneg ht (rollMad_nonneg w (bars.map (fun b => b.close.getD 0)) i)]

/-- C8 witness: on the complete spike sequence exactly index 5 is
flagged; its close becomes the local median 12 (inside the band) while
neighbouring closes and the volume column are untouched and all 10 rows
survive in order. -/
theorem C8_modifies_only_flagged_closes_witness :
    (clean_data_robust 5 15 barsC8w).length = 10 ∧
    ((clean_data_robust 5 15 barsC8w).getD 5 default).close = some 12 ∧
    ((clean_data_robust 5 15 barsC8w).getD 4 default).close = (barsC8w.getD 4 default).close ∧
    ((clean_data_robust 5 15 barsC8w).getD 5 default).volume =
      (barsC8w.getD 5 default).volume ∧
    (List.range 10).filter
      (fun i => isOutlier 5 15 (barsC8w.map (fun b => b.close.getD 0)) i) = [5] := by
  obtain ⟨hlen, hidx⟩ := C8_modifies_only_flagged_closes 5 15 barsC8w (by decide) (by decide)
  obtain ⟨_, _, _, hvol5, hclose5, _⟩ := hidx 5 (by decide)
  obtain ⟨_, _, _, _, hclose4, _⟩ := hidx 4 (by decide)
  refine ⟨by rw [hlen]; rfl, ?_, ?_, hvol5, by decide⟩
  · rw [hclose5]
    decide
  · rw [hclose4]
    decide

/-- C1: the claim says a strong-bear (most-bearish) regime makes the
Signal Engine return Avoid unconditionally.  The regime detector labels
its most-bearish cluster `"Bearish/Volatile"` (first entry of
`regime_labels`), but the guardrail of `predict_stock_price` tests the
substring `"Strong Bear"`, which occurs in none of the labels the
detector (or its `"Unknown"` fallback) can produce; the bear label
therefore falls through to the bull-mode branch, and a dip in an
uptrend with safe volume yields `"Strong Buy"` — contradicting the
code's own comment listing `"Strong Bear"` among the possible labels. -/
theorem C1_bear_regime_label_mismatch :
    regime_labels.getD 0 "" = "Bearish/Volatile" ∧
    (regime_labels ++ ["Unknown"]).all (fun l => !(pyIn "Strong Bear" l)) = true ∧
    signal_action "Bearish/Volatile" 100 50 40 100 100 = ("Strong Buy", "Bull Trend + Dip") := by
  refine ⟨rfl, by decide, by decide⟩

/-- C2: with all three GMM components populated and pairwise distinct
mean forward 1-day returns, the labelling step of `detect_regimes_gmm`
assigns each cluster the label whose position equals the number of
clusters with a strictly smaller mean return — so the lowest-mean
cluster is "Bearish/Volatile", the middle "Neutral/Choppy" and the
highest "Bullish/Trending". -/
theorem C2_labels_ascending_by_mean_return (rows : List (ℕ × ℚ))
    (h0 : rows.any (fun r => r.1 = 0) = true)
    (h1 : rows.any (fun r => r.1 = 1) = true)
    (h2 : rows.any (fun r => r.1 = 2) = true)
    (hd01 : clusterMean rows 0 ≠ clusterMean rows 1)
    (hd02 : clusterMean rows 0 ≠ clusterMean rows 2)
    (hd12 : clusterMean rows 1 ≠ clusterMean rows 2) :
    ∀ c < 3, regime_label rows c =
      some (regime_labels.getD (((List.range 3).filter
        (fun d => clusterMean rows d < clusterMean rows c)).length) "") := by
  intro c hc
  have hpc : presentClusters rows = [0, 1, 2] := by
    unfold presentClusters
    rw [show List.range 3 = [0, 1, 2] from rfl]
    simp [List.filter_cons, h0, h1, h2]
  have hs : sorted_clusters rows = insertByMean rows 0 (insertByMean rows 1 [2]) := by
    unfold sorted_clusters
    rw [hpc]
    rfl
  rw [show List.range 3 = [0, 1, 2] from rfl]
  rcases lt_or_gt_of_ne hd01 with h01 | h01 <;>
    rcases lt_or_gt_of_ne hd02 with h02 | h02 <;>
      rcases lt_or_gt_of_ne hd12 with h12 | h12
  · -- m0 < m1 < m2
    have hins : sorted_clusters rows = [0, 1, 2] := by
      rw [hs]
      simp [insertByMean, h12.le, h01.le]
    interval_cases c <;>
      simp [regime_label, label_map, hins, regime_labels, List.find?, List.filter_cons,
        lt_self_iff_false, h01, h02, h12, h01.asymm, h02.asymm, h12.asymm]
  · -- m0 < m1, m2 < m1, m0 < m2 : m0 < m2 < m1
    have hins : sorted_clusters rows = [0, 2, 1] := by
      rw [hs]
      simp [insertByMean, not_le.mpr h12, h02.le]
    interval_cases c <;>
      simp [regime_label, label_map, hins, regime_labels, List.find?, List.filter_cons,
        lt_self_iff_false, h01, h02, h12, h01.asymm, h02.asymm, h12.asymm]
  · -- m0 < m1, m2 < m0 : impossible with m1 < m2
    exact absurd (h02.trans h01) (not_lt.mpr h12.le)
  · -- m2 < m0 < m1
    have hins : sorted_clusters rows = [2, 0, 1] := by
      rw [hs]
      simp [insertByMean, not_le.mpr h12, not_le.mpr h02, h01.le]
    interval_cases c <;>
      simp [regime_label, label_map, hins, regime_labels, List.find?, List.filter_cons,
        lt_self_iff_false, h01, h02, h12, h01.asymm, h02.asymm, h12.asymm]
  · -- m1 < m0 < m2
    have hins : sorted_clusters rows = [1, 0, 2] := by
      rw [hs]
      simp [insertByMean, h12.le, not_le.mpr h01, h02.le]
    interval_cases c <;>
      simp [regime_label, label_map, hins, regime_labels, List.find?, List.filter_cons,
        lt_self_iff_false, h01, h02, h12, h01.asymm, h02.asymm, h12.asymm]
  · -- m1 < m0, m0 < m2, m2 < m1 : impossible
    exact absurd (h01.trans h02) (not_lt.mpr h12.le)
  · -- m1 < m2 < m0
    have hins : sorted_clusters rows = [1, 2, 0] := by
      rw [hs]
      simp [insertByMean, h12.le, not_le.mpr h01, not_le.mpr h02]
    interval_cases c <;>
      simp [regime_label, label_map, hins, regime_labels, List.find?, List.filter_cons,
        lt_self_iff_false, h01, h02, h12, h01.asymm, h02.asymm, h12.asymm]
  · -- m2 < m1 < m0
    have hins : sorted_clusters rows = [2, 1, 0] := by
      rw [hs]
      simp [insertByMean, not_le.mpr h12, not_le.mpr h01, not_le.mpr h02]
    interval_cases c <;>
      simp [regime_label, label_map, hins, regime_labels, List.find?, List.filter_cons,
        lt_self_iff_false, h01, h02, h12, h01.asymm, h02.asymm, h12.asymm]

/-- C2 witness: on a concrete table with cluster means −1 < 1 < 4, the
lowest-mean cluster gets "Bearish/Volatile", the middle
"Neutral/Choppy", the highest "Bullish/Trending". -/
theorem C2_labels_ascending_by_mean_return_witness :
    regime_label rowsC2 0 = some "Bearish/Volatile" ∧
    regime_label rowsC2 1 = some "Neutral/Choppy" ∧
    regime_label rowsC2 2 = some "Bullish/Trending" := by
  have h := C2_labels_ascending_by_mean_return rowsC2 (by decide) (by decide) (by decide)
    (by decide) (by decide) (by decide)
  refine ⟨?_, ?_, ?_⟩
  · rw [h 0 (by decide)]
    decide
  · rw [h 1 (by decide)]
    decide
  · rw [h 2 (by decide)]
    decide

theorem add_hurst_feature_getD (reg : List ℚ → Option ℚ) (w : ℕ) (closes : List ℚ)
    {i : ℕ} (hi : i < closes.length) :
    (add_hurst_feature reg w closes).getD i 0 =
      fill05 (interpAt (hurstObs (hurstRaw reg w closes)) i) := by
  unfold add_hurst_feature
  rw [List.getD_eq_getElem _ _ (by simpa using hi), List.getElem_map, List.getElem_range]

theorem hurstRaw_getD (reg : List ℚ → Option ℚ) (w : ℕ) (closes : List ℚ)
    {i : ℕ} (hi : i < closes.length) (d : ℚ) :
    (hurstRaw reg w closes).getD i d =
      if w ≤ i ∧ (i - w) % 5 = 0 then calculate_hurst reg ((closes.drop (i - w)).take w)
      else 1/2 := by
  unfold hurstRaw
  rw [List.getD_eq_getElem _ _ (by simpa using hi), List.getElem_map, List.getElem_range]

theorem hurstObs_getD (raw : List ℚ) {i : ℕ} (hi : i < raw.length) :
    (hurstObs raw).getD i none =
      if raw.getD i (1/2) = 1/2 then none else some (raw.getD i (1/2)) := by
  unfold hurstObs
  rw [List.getD_eq_getElem _ _ (by simpa using hi), List.getElem_map,
    List.getD_eq_getElem _ _ hi]

theorem length_hurstRaw (reg : List ℚ → Option ℚ) (w : ℕ) (closes : List ℚ) :
    (hurstRaw reg w closes).length = closes.length := by
  simp [hurstRaw]

theorem length_hurstObs (raw : List ℚ) : (hurstObs raw).length = raw.length := by
  simp [hurstObs]

theorem findPrevSome_eq_none (obs : List (Option ℚ)) :
    ∀ i, (∀ j < i, obs.getD j none = none) → findPrevSome obs i = none
  | 0, _ => rfl
  | i + 1, h => by
    rw [findPrevSome, h i (Nat.lt_succ_self i),
      findPrevSome_eq_none obs i (fun j hj => h j (hj.trans (Nat.lt_succ_self i)))]

/-- C5 counterexample: the claim says a numerically failed window's row
defaults to 0.5.  With the regression failing exactly on the window at
stride index 105 (and fitting 0.7 at 100 and 110), the sentinel 0.5 the
failure produces is erased by `replace(0.5, nan)` and the row is
linearly interpolated to 0.7 instead. -/
theorem C5_counterexample_failed_window_interpolated :
    regC5 ((closesC5.drop 5).take 100) = none ∧
    (add_hurst_feature regC5 100 closesC5).getD 105 0 = 7/10 ∧
    ¬ (add_hurst_feature regC5 100 closesC5).getD 105 0 = 1/2 := by
  refine ⟨by decide, by decide, by decide⟩

/-- C5 amended: before the first full 100-bar window exists the Hurst
column is exactly 0.5; a stride-computed row whose raw value is not
exactly 0.5 keeps that value; every other row — the rows skipped by the
5-bar stride and the rows whose computation returned the 0.5 sentinel
(numerical failure included) — is filled by positional linear
interpolation between the nearest surviving computed values (leading
rows fall back to 0.5, trailing rows copy the last computed value). -/
theorem C5_hurst_default_and_interpolation (reg : List ℚ → Option ℚ) (closes : List ℚ) :
    (∀ i, i < 100 → i < closes.length →
       (add_hurst_feature reg 100 closes).getD i 0 = 1/2) ∧
    (∀ i, i < closes.length →
       (hurstRaw reg 100 closes).getD i (1/2) ≠ 1/2 →
       (add_hurst_feature reg 100 closes).getD i 0 =
         (hurstRaw reg 100 closes).getD i (1/2)) ∧
    (∀ i p a q b, i < closes.length →
       (hurstObs (hurstRaw reg 100 closes)).getD i none = none →
       findPrevSome (hurstObs (hurstRaw reg 100 closes)) i = some (p, a) →
       findNextSome (hurstObs (hurstRaw reg 100 closes)) i = some (q, b) →
       (add_hurst_feature reg 100 closes).getD i 0 =
         a + (b - a) * ((i : ℚ) - (p : ℚ)) / ((q : ℚ) - (p : ℚ))) := by
  refine ⟨?_, ?_, ?_⟩
  · intro i hi100 hilen
    rw [add_hurst_feature_getD reg 100 closes hilen]
    have hobs : ∀ j, j < 100 → j < closes.length →
        (hurstObs (hurstRaw reg 100 closes)).getD j none = none := by
      intro j hj100 hjlen
      rw [hurstObs_getD _ (by rw [length_hurstRaw]; exact hjlen),
        hurstRaw_getD reg 100 closes hjlen]
      rw [if_neg (show ¬ (100 ≤ j ∧ (j - 100) % 5 = 0) by omega)]
      simp
    have hobs2 : ∀ j, ¬ j < closes.length →
        (hurstObs (hurstRaw reg 100 closes)).getD j none = none := by
      intro j hj
      rw [List.getD_eq_default]
      rw [length_hurstObs, length_hurstRaw]
      omega
    have hprev : findPrevSome (hurstObs (hurstRaw reg 100 closes)) i = none := by
      apply findPrevSome_eq_none
      intro j hj
      by_cases hjl : j < closes.length
      · exact hobs j (by omega) hjl
      · exact hobs2 j hjl
    unfold interpAt
    rw [hobs i hi100 hilen, hprev]
    rfl
  · intro i hilen hraw
    rw [add_hurst_feature_getD reg 100 closes hilen]
    have hobs : (hurstObs (hurstRaw reg 100 closes)).getD i none =
        some ((hurstRaw reg 100 closes).getD i (1/2)) := by
      rw [hurstObs_getD _ (by rw [length_hurstRaw]; exact hilen), if_neg hraw]
    unfold interpAt
    rw [hobs]
    rfl
  · intro i p a q b hilen hobs hprev hnext
    rw [add_hurst_feature_getD reg 100 closes hilen]
    unfold interpAt
    rw [hobs, hprev, hnext]
    rfl

/-- C5 amended witness: on the concrete 111-bar instance, row 7 (before
the first window) is 0.5, row 100 keeps its computed 0.7, and row 105 —
whose window's regression failed — is interpolated between rows 100 and
110 instead of being 0.5. -/
theorem C5_hurst_default_and_interpolation_witness :
    (add_hurst_feature regC5 100 closesC5).getD 7 0 = 1/2 ∧
    (add_hurst_feature regC5 100 closesC5).getD 100 0 =
      (hurstRaw regC5 100 closesC5).getD 100 (1/2) ∧
    (add_hurst_feature regC5 100 closesC5).getD 105 0 =
      7/10 + (7/10 - 7/10) * ((105 : ℚ) - (100 : ℚ)) / ((110 : ℚ) - (100 : ℚ)) := by
  obtain ⟨ha, hb, hc⟩ := C5_hurst_default_and_interpolation regC5 closesC5
  exact ⟨ha 7 (by decide) (by decide), hb 100 (by decide) (by decide),
    hc 105 100 (7/10) 110 (7/10) (by decide) (by decide) (by decide) (by decide)⟩

/-- C6: the claim says a blank symbol yields a client error (4xx).  The
`HTTPException(400)` is raised inside the endpoint's `try` block and is
caught by the `except Exception` handler (FastAPI's `HTTPException`
subclasses `Exception`, not `ValueError`), so the endpoint actually
responds 500 for an empty or whitespace-only symbol; genuine internal
failures do surface as a 500 carrying a message, and a `ValueError`
(no data) as a 404. -/
theorem C6_blank_symbol_becomes_500 :
    (∀ pl : String → PipeResult,
       predict_endpoint pl "" = (500, "Internal Server Error: 400: Symbol cannot be empty")) ∧
    (∀ pl : String → PipeResult,
       predict_endpoint pl "   " = (500, "Internal Server Error: 400: Symbol cannot be empty")) ∧
    (∀ m : String, predict_endpoint (fun _ => .failure m) "TCS" =
       (500, "Internal Server Error: " ++ m)) ∧
    (∀ m : String, predict_endpoint (fun _ => .valueError m) "TCS" = (404, m)) := by
  refine ⟨fun pl => rfl, fun pl => rfl, fun m => rfl, fun m => rfl⟩

/-- C3: while a position is open, a close at or below the stop-loss
threshold exits at that close with reason "SL" — the stop-loss branch is
checked first, so this holds even when the close also clears the
take-profit threshold — and either forced exit produces exactly the
`exitState`: one SELL trade appended, no equity point, no further buy or
signal sell on the bar. -/
theorem C3_stop_loss_checked_first (s : BtState) (row : Row) (hp : s.inPosition = true) :
    (row.close ≤ s.stopLoss →
       btStep s row = exitState s row.close "SL" ∧
       (btStep s row).equity = s.equity ∧
       (btStep s row).inPosition = false ∧
       (btStep s row).trades.getLast?.map (fun tr => (tr.typ, tr.reason)) =
         some ("SELL", some "SL") ∧
       (btStep s row).trades.length = s.trades.length + 1) ∧
    (s.stopLoss < row.close → s.takeProfit ≤ row.close →
       btStep s row = exitState s row.close "TP" ∧
       (btStep s row).equity = s.equity ∧
       (btStep s row).inPosition = false ∧
       (btStep s row).trades.getLast?.map (fun tr => (tr.typ, tr.reason)) =
         some ("SELL", some "TP") ∧
       (btStep s row).trades.length = s.trades.length + 1) := by
  constructor
  · intro hsl
    have hstep : btStep s row = exitState s row.close "SL" := by
      unfold btStep
      rw [if_pos ⟨hp, hsl⟩]
    refine ⟨hstep, ?_, ?_, ?_, ?_⟩ <;>
      simp [hstep, exitState, execute_sell, List.getLast?_concat]
  · intro hsl htp
    have hstep : btStep s row = exitState s row.close "TP" := by
      unfold btStep
      rw [if_neg (fun hc => absurd hc.2 (not_le.mpr hsl)), if_pos ⟨hp, htp⟩]
    refine ⟨hstep, ?_, ?_, ?_, ?_⟩ <;>
      simp [hstep, exitState, execute_sell, List.getLast?_concat]

/-- C4 counterexample: the claim says every simulated bar appends
exactly one equity point.  On a two-bar run whose first bar buys and
whose second bar breaches the stop-loss, the `continue` of the forced
exit skips the equity append, leaving one equity point for two bars. -/
theorem C4_counterexample_exit_bar_skips_equity :
    (btRun 100000 [rowBuy, rowSL]).equity.length = 1 ∧
    ¬ (btRun 100000 [rowBuy, rowSL]).equity.length = 2 := by
  constructor
  · decide
  · decide

/-- C4 amended: every simulated bar on which no stop-loss/take-profit
exit fires appends exactly one mark-to-market equity point equal to
cash + shares × close (with the post-action cash and share count); a bar
on which a forced exit fires appends none. -/
theorem C4_equity_point_per_non_exit_bar (s : BtState) (row : Row) :
    (exitFires s row = false →
       (btStep s row).equity =
         s.equity ++ [(btStep s row).balance + (btStep s row).position * row.close]) ∧
    (exitFires s row = true → (btStep s row).equity = s.equity) := by
  constructor
  · intro h
    unfold exitFires at h
    simp only [Bool.and_eq_false_iff, Bool.or_eq_false_iff, decide_eq_false_iff_not] at h
    have hc1 : ¬(s.inPosition = true ∧ row.close ≤ s.stopLoss) := by
      rintro ⟨hpos, hle⟩
      rcases h with h | ⟨h1, h2⟩
      · rw [hpos] at h; exact Bool.noConfusion h
      · exact h1 hle
    have hc2 : ¬(s.inPosition = true ∧ row.close ≥ s.takeProfit) := by
      rintro ⟨hpos, hge⟩
      rcases h with h | ⟨h1, h2⟩
      · rw [hpos] at h; exact Bool.noConfusion h
      · exact h2 hge
    unfold btStep
    rw [if_neg hc1, if_neg hc2]
    dsimp only
    split
    · rfl
    · split
      · simp [exitState, execute_sell]
      · rfl
  · intro h
    unfold exitFires at h
    simp only [Bool.and_eq_true, Bool.or_eq_true, decide_eq_true_eq] at h
    obtain ⟨hpos, hor⟩ := h
    by_cases hsl : row.close ≤ s.stopLoss
    · unfold btStep
      rw [if_pos ⟨hpos, hsl⟩]
      simp [exitState, execute_sell]
    · have htp : row.close ≥ s.takeProfit := by
        rcases hor with h | h
        · exact absurd h hsl
        · exact h
      unfold btStep
      rw [if_neg (fun hc => hsl hc.2), if_pos ⟨hpos, htp⟩]
      simp [exitState, execute_sell]

/-- C4 amended witness: a buying bar appends its mark-to-market value;
a stop-loss bar appends nothing. -/
theorem C4_equity_point_per_non_exit_bar_witness :
    (btStep (btInit 100000) rowBuy).equity = [100000] ∧
    (btStep stInPos rowSL).equity = [100000] := by
  constructor
  · have h := (C4_equity_point_per_non_exit_bar (btInit 100000) rowBuy).1 (by decide)
    rw [h]
    decide
  · exact (C4_equity_point_per_non_exit_bar stInPos rowSL).2 (by decide)

/-- C3 witness: a tie bar crossing both thresholds (a state with
`takeProfit ≤ close ≤ stopLoss`) exits with reason "SL"; a pure
take-profit bar exits with reason "TP" and appends no equity point. -/
theorem C3_stop_loss_checked_first_witness :
    (btStep stTie rowTie).trades.getLast?.map (fun tr => (tr.typ, tr.reason)) =
      some ("SELL", some "SL") ∧
    (btStep stTP rowTP).equity = [] := by
  constructor
  · exact ((C3_stop_loss_checked_first stTie rowTie rfl).1 (by decide)).2.2.2.1
  · exact ((C3_stop_loss_checked_first stTP rowTP rfl).2 (by decide) (by decide)).2.1

/-- C10: every chart point marked as a prediction has price ≥ 0 — it is
`max 0 yhat` of some forecast row past the last history date — while its
attached lower/upper bounds are the raw `yhat_lower`/`yhat_upper`,
passed through without clamping. -/
theorem C10_prediction_price_clamped (df : List HistRow) (fc : List ForecastRow) (lastDate : ℤ) :
    ∀ pt ∈ chart_data df fc lastDate, pt.isPrediction = true →
      0 ≤ pt.price ∧
      ∃ r ∈ fc, lastDate < r.ds ∧ pt.price = max 0 r.yhat ∧
        pt.lowerBound = some r.yhat_lower ∧ pt.upperBound = some r.yhat_upper := by
  intro pt hpt hpred
  rcases List.mem_append.mp hpt with h | h
  · rcases List.mem_map.mp h with ⟨r, hr, rfl⟩
    simp at hpred
  · rcases List.mem_map.mp h with ⟨r, hr, rfl⟩
    rcases List.mem_filter.mp hr with ⟨hrf, hds⟩
    refine ⟨le_max_left 0 r.yhat, r, hrf, ?_, rfl, rfl, rfl⟩
    simpa using hds

/-- C10 witness: a forecast row with negative `yhat` and negative bounds
yields a prediction point of price 0 whose lower bound stays −7. -/
theorem C10_prediction_price_clamped_witness :
    0 ≤ (ChartPoint.mk 5 (max 0 (-3)) true (some (-7)) (some (-1)) none none).price ∧
    (ChartPoint.mk 5 (max 0 (-3)) true (some (-7)) (some (-1)) none none) ∈
      chart_data [] [⟨5, -3, -7, -1⟩] 0 ∧
    (ChartPoint.mk 5 (max 0 (-3)) true (some (-7)) (some (-1)) none none).price = 0 ∧
    (ChartPoint.mk 5 (max 0 (-3)) true (some (-7)) (some (-1)) none none).lowerBound =
      some (-7) := by
  have hmem : (ChartPoint.mk 5 (max 0 (-3)) true (some (-7)) (some (-1)) none none) ∈
      chart_data [] [⟨5, -3, -7, -1⟩] 0 := by
    unfold chart_data
    simp
  have h := C10_prediction_price_clamped [] [⟨5, -3, -7, -1⟩] 0 _ hmem rfl
  exact ⟨h.1, hmem, by decide, rfl⟩

theorem find_map_update (s : String) (v : List PredEntry) :
    ∀ h : List (String × List PredEntry), hasKey h s = true →
      ∃ k, (h.map (fun kv => if kv.1 = s then (kv.1, v) else kv)).find?
        (fun kv => kv.1 = s) = some (k, v)
  | [], hk => by simp [hasKey] at hk
  | kv :: t, hk => by
    by_cases he : kv.1 = s
    · refine ⟨kv.1, ?_⟩
      rw [List.map_cons, List.find?_cons_of_pos]
      · rw [if_pos he]
      · rw [if_pos he]
        simpa using he
    · have hk2 : hasKey t s = true := by
        unfold hasKey at hk ⊢
        simpa [he] using hk
      obtain ⟨k, hfind⟩ := find_map_update s v t hk2
      refine ⟨k, ?_⟩
      rw [List.map_cons, List.find?_cons_of_neg, hfind]
      rw [if_neg he]
      simpa using he

theorem find_map_update_ne (s s2 : String) (hne : s2 ≠ s) (v : List PredEntry) :
    ∀ h : List (String × List PredEntry),
      (h.map (fun kv => if kv.1 = s then (kv.1, v) else kv)).find? (fun kv => kv.1 = s2) =
        h.find? (fun kv => kv.1 = s2)
  | [] => rfl
  | kv :: t => by
    have hfst : ((if kv.1 = s then (kv.1, v) else kv) : String × List PredEntry).1 = kv.1 := by
      split <;> rfl
    by_cases he2 : kv.1 = s2
    · have he : ¬ kv.1 = s := fun hc => hne ((hc.symm.trans he2).symm)
      rw [List.map_cons,
        List.find?_cons_of_pos _ (by simp only [hfst, decide_eq_true_eq]; exact he2),
        List.find?_cons_of_pos _ (by simp only [decide_eq_true_eq]; exact he2), if_neg he]
    · rw [List.map_cons,
        List.find?_cons_of_neg _ (by simp only [hfst, decide_eq_true_eq]; exact he2),
        List.find?_cons_of_neg _ (by simp only [decide_eq_true_eq]; exact he2)]
      exact find_map_update_ne s s2 hne v t

theorem find_no_key {s : String} {h : List (String × List PredEntry)}
    (hk : hasKey h s = false) : h.find? (fun kv => kv.1 = s) = none := by
  rw [List.find?_eq_none]
  intro kv hmem
  unfold hasKey at hk
  exact List.any_eq_false.mp hk kv hmem

theorem entriesFor_setEntries_self (h : List (String × List PredEntry))
    (s : String) (v : List PredEntry) : entriesFor (setEntries h s v) s = v := by
  unfold setEntries
  by_cases hk : hasKey h s
  · rw [if_pos hk]
    obtain ⟨k, hfind⟩ := find_map_update s v h hk
    unfold entriesFor
    rw [hfind]
    rfl
  · rw [if_neg hk]
    unfold entriesFor
    rw [List.find?_append, find_no_key (Bool.of_not_eq_true hk)]
    rw [List.find?_cons_of_pos _ (by simp)]
    rfl

theorem entriesFor_setEntries_ne (h : List (String × List PredEntry))
    {s s2 : String} (v : List PredEntry) (hne : s2 ≠ s) :
    entriesFor (setEntries h s v) s2 = entriesFor h s2 := by
  unfold setEntries
  by_cases hk : hasKey h s
  · rw [if_pos hk]
    unfold entriesFor
    rw [find_map_update_ne s s2 hne v h]
  · rw [if_neg hk]
    unfold entriesFor
    rw [List.find?_append]
    have hlast : ([((s, v) : String × List PredEntry)]).find? (fun kv => kv.1 = s2) = none := by
      rw [List.find?_eq_none]
      intro kv hmem
      simp only [List.mem_singleton] at hmem
      subst hmem
      simp only [decide_eq_true_eq]
      exact fun hc => hne hc.symm
    rw [hlast]
    cases h.find? (fun kv => kv.1 = s2) <;> rfl

/-- C9: logging a prediction is idempotent per symbol per day — a second
call with the same date leaves the persisted history exactly as the
first left it; when the day is fresh, the call appends a single entry
carrying `actual = none` and `verified = false`; entries of other dates
and other symbols are untouched. -/
theorem C9_log_prediction_idempotent (h : List (String × List PredEntry))
    (s d : String) (p q : ℚ) :
    log_prediction (log_prediction h s d p) s d q = log_prediction h s d p ∧
    ((entriesFor h s).countP (fun e => e.date = d) = 0 →
       (entriesFor (log_prediction h s d p) s).filter (fun e => e.date = d) =
         [{ date := d, predicted := p }]) ∧
    ((entriesFor (log_prediction h s d p) s).filter (fun e => ¬ e.date = d) =
       (entriesFor h s).filter (fun e => ¬ e.date = d)) ∧
    (∀ s2, s2 ≠ s → entriesFor (log_prediction h s d p) s2 = entriesFor h s2) := by
  by_cases hany : (entriesFor h s).any (fun e => e.date = d)
  · have hfix : log_prediction h s d p = h := by
      unfold log_prediction
      rw [if_pos hany]
    refine ⟨?_, ?_, ?_, ?_⟩
    · rw [hfix]
      unfold log_prediction
      rw [if_pos hany]
    · intro hcount
      exfalso
      rw [List.any_eq_true] at hany
      obtain ⟨e, hmem, he⟩ := hany
      exact (List.countP_eq_zero.mp hcount) e hmem he
    · rw [hfix]
    · intro s2 _
      rw [hfix]
  · have hlog : log_prediction h s d p =
        setEntries h s (entriesFor h s ++ [{ date := d, predicted := p }]) := by
      unfold log_prediction
      rw [if_neg hany]
    have hes : entriesFor (log_prediction h s d p) s =
        entriesFor h s ++ [{ date := d, predicted := p }] := by
      rw [hlog, entriesFor_setEntries_self]
    refine ⟨?_, ?_, ?_, ?_⟩
    · have hany2 : (entriesFor (log_prediction h s d p) s).any
          (fun e => e.date = d) = true := by
        rw [hes, List.any_append]
        simp
      have hfix2 : ∀ (h2 : List (String × List PredEntry)) (r : ℚ),
          (entriesFor h2 s).any (fun e => e.date = d) = true →
          log_prediction h2 s d r = h2 := by
        intro h2 r ha
        unfold log_prediction
        rw [if_pos ha]
      exact hfix2 _ q hany2
    · intro _
      rw [hes, List.filter_append]
      have h1 : (entriesFor h s).filter (fun e => e.date = d) = [] := by
        rw [List.filter_eq_nil_iff]
        rw [Bool.not_eq_true] at hany
        exact List.any_eq_false.mp hany
      rw [h1]
      simp
    · rw [hes, List.filter_append]
      simp
    · intro s2 hne
      rw [hlog, entriesFor_setEntries_ne _ _ hne]

/-- C9 witness: on a concrete one-entry history, logging twice on a
fresh day keeps exactly one entry of that day (with `actual = none`,
`verified = false`), and the earlier entry and other symbols survive. -/
theorem C9_log_prediction_idempotent_witness :
    log_prediction (log_prediction histEx "TCS" "2026-10-12" 7) "TCS" "2026-10-12" 9 =
      log_prediction histEx "TCS" "2026-10-12" 7 ∧
    (entriesFor (log_prediction histEx "TCS" "2026-10-12" 7) "TCS").filter
      (fun e => e.date = "2026-10-12") = [⟨"2026-10-12", 7, none, false, none⟩] ∧
    (entriesFor (log_prediction histEx "TCS" "2026-10-12" 7) "TCS").filter
      (fun e => ¬ e.date = "2026-10-12") =
      (entriesFor histEx "TCS").filter (fun e => ¬ e.date = "2026-10-12") ∧
    entriesFor (log_prediction histEx "TCS" "2026-10-12" 7) "INFY" =
      entriesFor histEx "INFY" := by
  obtain ⟨h1, h2, h3, h4⟩ := C9_log_prediction_idempotent histEx "TCS" "2026-10-12" 7 9
  exact ⟨h1, h2 (by decide), h3, h4 "INFY" (by decide)⟩

end StockPredictor
